import Mathlib

/-!
Shallow embedding of the import/reconciliation core of SSE-Auto-Translator
(`src/addons.py`) and of the animated stacked widget
(`src/widgets/stacked_widget.py`), together with proofs settling the
specification claims about them.

GUI-only effects (tree-item text updates, Qt signals' wiring, dialogs) are
outside the embedding; record mutation, emitted progress values, task
outcome and raised exceptions are modelled explicitly.
-/

/-- Translation status of a string record (`utils.String.Status`). -/
inductive Status where
  | Untranslated
  | TranslationIncomplete
  | TranslationComplete
deriving DecidableEq, Repr

/-- A live editor string record (the `string` objects held in
`editor.items`).  `editor_id` can be `None` in the source
(`string.editor_id is None` is checked), hence `Option`. -/
structure StringRecord where
  original_string : String
  translated_string : String
  status : Status
  editor_id : Option String
  form_id : String
  type : String
  index : Nat
deriving DecidableEq, Repr

/-- One decoded entry of a JSON source file: an object with keys
`index`, `type`, `original`, `string` (the shape `export_json` writes and
`load_data` reads). -/
structure JsonEntry where
  index : Nat
  type : String
  original : String
  string : String
deriving DecidableEq, Repr

/-- `Worker.load_data`, JSON branch: `data[entry['original']] = entry` over
the decoded array.  A Python dict lookup returns the last entry written
under a key, hence `reverse.find?`. -/
def jsonLookup (entries : List JsonEntry) (k : String) : Option JsonEntry :=
  entries.reverse.find? (fun e => e.original == k)

/-- `len(data)` for the JSON-built dict: the number of distinct `original`
keys among the decoded entries. -/
def jsonKeyCount (entries : List JsonEntry) : Nat :=
  ((entries.map (fun e => e.original)).dedup).length

/-- `Worker.load_data`, legacy (pickle) branch:
`data[entry.original_string] = entry` over the unpickled records. -/
def legacyLookup (entries : List StringRecord) (k : String) : Option StringRecord :=
  entries.reverse.find? (fun e => e.original_string == k)

/-- `len(data)` for the legacy-built dict: distinct `original_string` keys. -/
def legacyKeyCount (entries : List StringRecord) : Nat :=
  ((entries.map (fun e => e.original_string)).dedup).length

/-- One record step of `Worker.import_data` with `json_format=True`.
`none` models the `KeyError` raised by `data[string.original_string]`
(caught by the loop, which then `continue`s); `some r'` is the record after
the step.  The code compares the entry's `'string'` field (the stored
translation) against the record's `original_string` and, when they differ,
overwrites `translated_string` with that field and forces
`TranslationIncomplete`. -/
def jsonApply (data : String → Option JsonEntry) (r : StringRecord) :
    Option StringRecord :=
  if r.status = Status.TranslationComplete then some r
  else
    match data r.original_string with
    | none => none
    | some e =>
      if e.string ≠ r.original_string then
        some { r with translated_string := e.string
                      status := Status.TranslationIncomplete }
      else some r

/-- One record step of `Worker.import_data` with `json_format=False`.
The guard `if data[string.original_string]:` tests Python truthiness of the
unpickled record object; `utils.String` objects have default object
truthiness, i.e. are always truthy, so a found entry is always applied. -/
def legacyApply (data : String → Option StringRecord) (r : StringRecord) :
    Option StringRecord :=
  if r.status = Status.TranslationComplete then some r
  else
    match data r.original_string with
    | none => none
    | some e =>
      some { r with translated_string := e.translated_string
                    status := e.status }

/-- Model of the `ZeroDivisionError` raised by
`int((i + 1) / total_entries * 100)` when `total_entries == 0`. -/
inductive ImportErr where
  | zeroDivisionError
deriving DecidableEq, Repr

/-- Result of running the `Worker.import_data` loop: the records after the
run (partially mutated when the loop aborted), the emitted progress values
in emission order, and the raised exception, if any. -/
structure ImportResult where
  records : List StringRecord
  progress : List Nat
  err : Option ImportErr
deriving DecidableEq, Repr

/-- The loop of `Worker.import_data`, abstracted over the per-record step
(`jsonApply data` or `legacyApply data`).  A `TranslationComplete` record
is left alone by the step; a `KeyError` (`apply r = none`) runs `continue`,
which skips both the progress emission and the `i = i + 1` increment; every
other record reaches `progress = int((i + 1) / total_entries * 100)`
(modelled with exact arithmetic, `(i + 1) * 100 / total`), which raises
`ZeroDivisionError` when `total = 0`, aborting the loop with the records
mutated so far kept and the rest untouched. -/
def importLoop (apply : StringRecord → Option StringRecord) (total : Nat) :
    List StringRecord → Nat → ImportResult
  | [], _ => ⟨[], [], none⟩
  | r :: rs, i =>
    match apply r with
    | none =>
      let rest := importLoop apply total rs i
      ⟨r :: rest.records, rest.progress, rest.err⟩
    | some r' =>
      if total = 0 then ⟨r' :: rs, [], some ImportErr.zeroDivisionError⟩
      else
        let rest := importLoop apply total rs (i + 1)
        ⟨r' :: rest.records, (i + 1) * 100 / total :: rest.progress, rest.err⟩

/-- `Worker.import_data(data, total_entries, json_format=True)`. -/
def import_data_json (entries : List JsonEntry) (total : Nat)
    (session : List StringRecord) : ImportResult :=
  importLoop (jsonApply (jsonLookup entries)) total session 0

/-- `Worker.import_data(data, total_entries, json_format=False)`. -/
def import_data_legacy (entries : List StringRecord) (total : Nat)
    (session : List StringRecord) : ImportResult :=
  importLoop (legacyApply (legacyLookup entries)) total session 0

/-- A loaded source, as produced by `Worker.load_data` on success: the
decoded JSON array when the path ends in `.json`, the unpickled record
list otherwise. -/
inductive SourceData where
  | jsonSource (entries : List JsonEntry)
  | legacySource (entries : List StringRecord)
deriving DecidableEq, Repr

/-- Exceptions `Worker.load_data` can raise: `FileNotFoundError`,
`json.JSONDecodeError`, `pickle.UnpicklingError` (any non-`.json` path is
fed to `pickle.load`; there is no separate unsupported-format check). -/
inductive LoadErr where
  | notFound
  | parseError
  | unpicklingError
deriving DecidableEq, Repr

/-- Errors surfaced on the `error` signal by `Worker.run`'s `except`. -/
inductive RunError where
  | loadError (e : LoadErr)
  | zeroDivisionError
deriving DecidableEq, Repr

/-- Terminal outcome of `Worker.run`: the `result` signal payload on
success, the `error` signal payload on failure.  (`finished` fires in both
cases and carries nothing.) -/
inductive RunOutcome where
  | completed (result : String)
  | failed (e : RunError)
deriving DecidableEq, Repr

/-- Outcome, final records and emitted progress of one `Worker.run`. -/
structure RunResult where
  outcome : RunOutcome
  records : List StringRecord
  progress : List Nat
deriving DecidableEq, Repr

/-- `Worker.run`: load, then `import_data` with `total_entries = len(data)`
and `json_format` chosen by the path extension; on success emit
`'DB_IMPORTED'` on the `result` signal; any exception is routed to the
`error` signal.  File I/O is abstracted into the `load` argument, the
outcome of `Worker.load_data`. -/
def worker_run (load : Except LoadErr SourceData)
    (session : List StringRecord) : RunResult :=
  match load with
  | Except.error e => ⟨RunOutcome.failed (RunError.loadError e), session, []⟩
  | Except.ok (SourceData.jsonSource entries) =>
    let res := import_data_json entries (jsonKeyCount entries) session
    ⟨match res.err with
      | some _ => RunOutcome.failed RunError.zeroDivisionError
      | none => RunOutcome.completed "DB_IMPORTED",
     res.records, res.progress⟩
  | Except.ok (SourceData.legacySource entries) =>
    let res := import_data_legacy entries (legacyKeyCount entries) session
    ⟨match res.err with
      | some _ => RunOutcome.failed RunError.zeroDivisionError
      | none => RunOutcome.completed "DB_IMPORTED",
     res.records, res.progress⟩

/-- `EditorAddon.export_json`: one entry per session record (all of them
when `full`, otherwise those not `TranslationComplete`), carrying the
enumeration index over the whole session. -/
def export_json (full : Bool) (session : List StringRecord) : List JsonEntry :=
  session.enum.filterMap (fun p =>
    if full || decide (p.2.status ≠ Status.TranslationComplete) then
      some ⟨p.1, p.2.type, p.2.original_string, p.2.translated_string⟩
    else none)

/-- Key of the plugin-matching path: `(editor_id, type)` when `only_edid`,
`(editor_id, form_id, type)` otherwise. -/
inductive EspKey where
  | edid (editor_id : Option String) (type : String)
  | full (editor_id : Option String) (form_id : String) (type : String)
deriving DecidableEq, Repr

/-- The key `EditorAddon.import_esp` / `extract_translation_strings`
compute for a string. -/
def espKey (only_edid : Bool) (s : StringRecord) : EspKey :=
  if only_edid then EspKey.edid s.editor_id s.type
  else EspKey.full s.editor_id s.form_id s.type

/-- `EditorAddon.extract_translation_strings`: the dict of lists built by
appending each extracted plugin string under its key, read back as the
in-order sublist sharing the key (an absent key reads as `[]`, matching
`key in translation_strings` being false exactly when this list is empty). -/
def extract_translation_strings (only_edid : Bool)
    (strs : List StringRecord) (k : EspKey) : List StringRecord :=
  strs.filter (fun s => espKey only_edid s == k)

/-- Per-record body of the `EditorAddon.import_esp` loop: skip records that
are `TranslationComplete`; skip when `only_edid` and `editor_id is None`;
look up the key; with several candidates keep the first whose `index`
matches (skip when none does), with exactly one take it unconditionally;
on a match set `translated_string` to the matched plugin string's
`original_string` and force `TranslationIncomplete`. -/
def espApply (lookup : EspKey → List StringRecord) (only_edid : Bool)
    (r : StringRecord) : StringRecord :=
  if r.status = Status.TranslationComplete then r
  else if r.editor_id = none ∧ only_edid = true then r
  else
    match lookup (espKey only_edid r) with
    | [] => r
    | [t] => { r with translated_string := t.original_string
                      status := Status.TranslationIncomplete }
    | _ :: _ :: _ =>
      match (lookup (espKey only_edid r)).filter (fun t => t.index == r.index) with
      | [] => r
      | u :: _ => { r with translated_string := u.original_string
                           status := Status.TranslationIncomplete }

/-- `EditorAddon.import_esp` applied to extracted plugin strings. -/
def import_esp (only_edid : Bool) (strs : List StringRecord)
    (session : List StringRecord) : List StringRecord :=
  session.map (espApply (extract_translation_strings only_edid strs) only_edid)

/-- Python's `needle in haystack` on strings: substring containment
(true at some offset, including the empty needle). -/
def pyInStr (needle haystack : String) : Bool :=
  (List.range (haystack.data.length + 1)).any (fun k =>
    (haystack.data.drop k).take needle.data.length == needle.data)

/-- The `TypeError` raised by `data[string.original_string]` when `data` is
the string `'DB_IMPORTED'` (string indices must be integers); the `except
KeyError` handler does not catch it. -/
inductive GuiErr where
  | typeError
deriving DecidableEq, Repr

/-- `EditorAddon.update_gui_with_data` at a string argument (the `result`
signal carries the constant string `'DB_IMPORTED'`): for each record not
`TranslationComplete`, `string.original_string in data` is a substring
test; when it holds, the subsequent string indexing raises `TypeError`,
aborting the slot; otherwise the record is untouched. -/
def update_gui_with_data (data : String) :
    List StringRecord → Except GuiErr (List StringRecord)
  | [] => Except.ok []
  | r :: rs =>
    if r.status ≠ Status.TranslationComplete ∧ pyInStr r.original_string data = true then
      Except.error GuiErr.typeError
    else (update_gui_with_data data rs).map (fun rs' => r :: rs')

namespace StackedWidget

/-- Slide directions of the animated `StackedWidget`. -/
inductive Direction where
  | LeftToRight
  | RightToLeft
  | TopToBottom
  | BottomToTop
  | Automatic
deriving DecidableEq, Repr

/-- Animation orientation of the `StackedWidget`. -/
inductive Orientation where
  | Vertical
  | Horizontal
deriving DecidableEq, Repr

/-- `StackedWidget.slideInIndex`: the page index finally passed to
`slideInWidget` together with the (possibly overridden) direction.
`count` is `self.count()`; Python `%` on ints with a positive modulus is
Euclidean remainder, i.e. `Int.emod` (the `%` below). -/
def slideInIndex (count : Nat) (orientation : Orientation) (index : Int)
    (direction : Direction) : Int × Direction :=
  if index > (count : Int) - 1 then
    (index % (count : Int),
     if orientation = Orientation.Vertical then Direction.TopToBottom
     else Direction.RightToLeft)
  else if index < 0 then
    ((index + (count : Int)) % (count : Int),
     if orientation = Orientation.Vertical then Direction.BottomToTop
     else Direction.LeftToRight)
  else (index, direction)

end StackedWidget

/-! ### Helper lemmas about the reconciliation loop -/

/-- A step that fixes `TranslationComplete` records leaves them untouched
at their position, on every path of the loop (including the
`ZeroDivisionError` abort). -/
theorem importLoop_keeps_complete
    (apply : StringRecord → Option StringRecord)
    (hpres : ∀ r, r.status = Status.TranslationComplete → apply r = some r)
    (total : Nat) :
    ∀ (session : List StringRecord) (i k : Nat) (r : StringRecord),
      session[k]? = some r → r.status = Status.TranslationComplete →
      (importLoop apply total session i).records[k]? = some r := by
  intro session
  induction session with
  | nil => intro i k r hk _; simp at hk
  | cons r0 rs ih =>
    intro i k r hk hc
    cases k with
    | zero =>
      simp only [List.getElem?_cons_zero, Option.some.injEq] at hk
      subst hk
      have h0 := hpres r0 hc
      simp only [importLoop, h0]
      by_cases ht : total = 0 <;> simp [ht]
    | succ k =>
      simp only [List.getElem?_cons_succ] at hk
      simp only [importLoop]
      cases happly : apply r0 with
      | none => simpa using ih i k r hk hc
      | some r0' =>
        by_cases ht : total = 0
        · simpa [ht] using hk
        · simpa [ht] using ih (i + 1) k r hk hc

/-- With a nonzero total the loop never aborts, and the record at
position `k` is exactly the step applied to the input record (unchanged on
a `KeyError`). -/
theorem importLoop_get (apply : StringRecord → Option StringRecord)
    (total : Nat) (ht : total ≠ 0) :
    ∀ (session : List StringRecord) (i k : Nat) (r : StringRecord),
      session[k]? = some r →
      (importLoop apply total session i).records[k]? =
        some ((apply r).getD r) := by
  intro session
  induction session with
  | nil => intro i k r hk; simp at hk
  | cons r0 rs ih =>
    intro i k r hk
    cases k with
    | zero =>
      simp only [List.getElem?_cons_zero, Option.some.injEq] at hk
      subst hk
      simp only [importLoop]
      cases happly : apply r0 with
      | none => simp [happly]
      | some r0' => simp [happly, ht]
    | succ k =>
      simp only [List.getElem?_cons_succ] at hk
      simp only [importLoop]
      cases happly : apply r0 with
      | none => simpa using ih i k r hk
      | some r0' => simpa [ht] using ih (i + 1) k r hk

/-- If the step preserves the status of every record of the session, the
loop preserves the list of statuses, on every path (including the
`ZeroDivisionError` abort). -/
theorem importLoop_map_status (apply : StringRecord → Option StringRecord)
    (total : Nat) :
    ∀ (session : List StringRecord) (i : Nat),
      (∀ r ∈ session, ∀ r', apply r = some r' → r'.status = r.status) →
      (importLoop apply total session i).records.map (fun r => r.status) =
        session.map (fun r => r.status) := by
  intro session
  induction session with
  | nil => intro i _; rfl
  | cons r0 rs ih =>
    intro i h
    simp only [importLoop]
    cases happly : apply r0 with
    | none =>
      simpa using ih i (fun r hr => h r (List.mem_cons_of_mem r0 hr))
    | some r0' =>
      have hst : r0'.status = r0.status := h r0 (List.mem_cons_self r0 rs) r0' happly
      by_cases ht : total = 0
      · simp [ht, hst]
      · simpa [ht, hst] using ih (i + 1) (fun r hr => h r (List.mem_cons_of_mem r0 hr))

/-- With a nonzero total, the emitted progress values are exactly
`(i + j + 1) * 100 / total` for `j` running over the records that do not
hit a `KeyError`, in order. -/
theorem importLoop_progress_eq (apply : StringRecord → Option StringRecord)
    (total : Nat) (ht : total ≠ 0) :
    ∀ (session : List StringRecord) (i : Nat),
      (importLoop apply total session i).progress =
        (List.range (session.countP (fun r => (apply r).isSome))).map
          (fun j => (i + j + 1) * 100 / total) := by
  intro session
  induction session with
  | nil => intro i; rfl
  | cons r0 rs ih =>
    intro i
    simp only [importLoop]
    cases happly : apply r0 with
    | none =>
      simpa [List.countP_cons, happly] using ih i
    | some r0' =>
      have hcnt : (r0 :: rs).countP (fun r => (apply r).isSome) =
          rs.countP (fun r => (apply r).isSome) + 1 := by
        simp [List.countP_cons, happly]
      rw [hcnt, List.range_succ_eq_map]
      simp only [List.map_cons, List.map_map, if_neg ht]
      simp only [List.cons.injEq]
      refine ⟨by simp, ?_⟩
      rw [ih (i + 1)]
      refine congrArg (fun f => List.map f _) (funext fun j => ?_)
      simp only [Function.comp_apply, Nat.succ_eq_add_one]
      have harith : i + (j + 1) + 1 = i + 1 + j + 1 := by omega
      rw [harith]

/-- A found JSON entry was stored under its own `original` field, so its
`original` equals the lookup key. -/
theorem jsonLookup_original (entries : List JsonEntry) (k : String)
    (e : JsonEntry) (h : jsonLookup entries k = some e) : e.original = k := by
  have hp := List.find?_some h
  simpa using hp

/-- A successful JSON lookup forces a nonzero `len(data)`. -/
theorem jsonLookup_keyCount_pos (entries : List JsonEntry) (k : String)
    (e : JsonEntry) (h : jsonLookup entries k = some e) :
    jsonKeyCount entries ≠ 0 := by
  have hmem : e ∈ entries.reverse := List.mem_of_find?_eq_some h
  have hne : entries ≠ [] := by rintro rfl; simp at hmem
  intro hlen
  apply hne
  have h1 : ((entries.map (fun e => e.original)).dedup) = [] :=
    List.length_eq_zero.mp hlen
  have h2 : entries.map (fun e => e.original) = [] :=
    (List.dedup_eq_nil _).mp h1
  exact List.map_eq_nil_iff.mp h2

/-- A successful legacy lookup forces a nonzero `len(data)`. -/
theorem legacyLookup_keyCount_pos (entries : List StringRecord) (k : String)
    (e : StringRecord) (h : legacyLookup entries k = some e) :
    legacyKeyCount entries ≠ 0 := by
  have hmem : e ∈ entries.reverse := List.mem_of_find?_eq_some h
  have hne : entries ≠ [] := by rintro rfl; simp at hmem
  intro hlen
  apply hne
  have h1 : ((entries.map (fun e => e.original_string)).dedup) = [] :=
    List.length_eq_zero.mp hlen
  have h2 : entries.map (fun e => e.original_string) = [] :=
    (List.dedup_eq_nil _).mp h1
  exact List.map_eq_nil_iff.mp h2

/-! ### Claim theorems -/

/-- C1: a `StringRecord` whose status is `TranslationComplete` is changed
neither by `Worker.import_data` (JSON or legacy reconciliation) nor by
`EditorAddon.import_esp` (plugin-based matching): at its position the
record, hence its `translated_string` and `status`, is untouched. -/
theorem complete_records_untouched
    (je : List JsonEntry) (le : List StringRecord) (totj totl : Nat)
    (session strs : List StringRecord) (oe : Bool) (k : Nat)
    (r : StringRecord) (hk : session[k]? = some r)
    (hc : r.status = Status.TranslationComplete) :
    (import_data_json je totj session).records[k]? = some r ∧
    (import_data_legacy le totl session).records[k]? = some r ∧
    (import_esp oe strs session)[k]? = some r := by
  refine ⟨?_, ?_, ?_⟩
  · exact importLoop_keeps_complete _
      (fun r hr => by simp [jsonApply, hr]) totj session 0 k r hk hc
  · exact importLoop_keeps_complete _
      (fun r hr => by simp [legacyApply, hr]) totl session 0 k r hk hc
  · rw [import_esp, List.getElem?_map, hk]
    simp [espApply, hc]

/-- Witness for C1 at a concrete complete record. -/
theorem complete_records_untouched_witness :
    (import_data_json [⟨0, "t", "a", "b"⟩] 1
        [⟨"a", "x", Status.TranslationComplete, none, "", "", 0⟩]).records[0]? =
      some ⟨"a", "x", Status.TranslationComplete, none, "", "", 0⟩ ∧
    (import_data_legacy [⟨"a", "y", Status.Untranslated, none, "", "", 0⟩] 1
        [⟨"a", "x", Status.TranslationComplete, none, "", "", 0⟩]).records[0]? =
      some ⟨"a", "x", Status.TranslationComplete, none, "", "", 0⟩ ∧
    (import_esp false [⟨"a", "y", Status.Untranslated, none, "", "", 0⟩]
        [⟨"a", "x", Status.TranslationComplete, none, "", "", 0⟩])[0]? =
      some ⟨"a", "x", Status.TranslationComplete, none, "", "", 0⟩ :=
  complete_records_untouched [⟨0, "t", "a", "b"⟩]
    [⟨"a", "y", Status.Untranslated, none, "", "", 0⟩] 1 1
    [⟨"a", "x", Status.TranslationComplete, none, "", "", 0⟩]
    [⟨"a", "y", Status.Untranslated, none, "", "", 0⟩] false 0
    ⟨"a", "x", Status.TranslationComplete, none, "", "", 0⟩ rfl rfl

/-- C7: a non-complete record whose `original_string` is a key of the
legacy (pickled) mapping — a found entry is always truthy, `utils.String`
having default object truthiness — gets the entry's `translated_string`
and `status` copied verbatim (with `total_entries = len(data)` as wired in
`Worker.run`). -/
theorem legacy_overwrite_rule (entries : List StringRecord)
    (session : List StringRecord) (k : Nat) (r e : StringRecord)
    (hk : session[k]? = some r)
    (hnc : r.status ≠ Status.TranslationComplete)
    (he : legacyLookup entries r.original_string = some e) :
    (import_data_legacy entries (legacyKeyCount entries) session).records[k]? =
      some { r with translated_string := e.translated_string,
                    status := e.status } := by
  have ht := legacyLookup_keyCount_pos entries _ e he
  have h := importLoop_get (legacyApply (legacyLookup entries)) _ ht session 0 k r hk
  rw [import_data_legacy, h]
  simp [legacyApply, hnc, he]

/-- Witness for C7: an `Untranslated` record receives the legacy entry's
translation and status verbatim. -/
theorem legacy_overwrite_rule_witness :
    (import_data_legacy
        [⟨"a", "T", Status.TranslationComplete, none, "", "", 0⟩]
        (legacyKeyCount [⟨"a", "T", Status.TranslationComplete, none, "", "", 0⟩])
        [⟨"a", "", Status.Untranslated, none, "", "", 0⟩]).records[0]? =
      some ⟨"a", "T", Status.TranslationComplete, none, "", "", 0⟩ :=
  legacy_overwrite_rule
    [⟨"a", "T", Status.TranslationComplete, none, "", "", 0⟩]
    [⟨"a", "", Status.Untranslated, none, "", "", 0⟩] 0
    ⟨"a", "", Status.Untranslated, none, "", "", 0⟩
    ⟨"a", "T", Status.TranslationComplete, none, "", "", 0⟩
    rfl (by decide) rfl

/-- C8: every load-time failure is routed by `Worker.run`'s `except` to the
`error` signal before `import_data` is reached: the task fails with the
load error, the record collection is returned unchanged and no progress is
emitted. -/
theorem load_error_aborts (e : LoadErr) (session : List StringRecord) :
    worker_run (Except.error e) session =
      ⟨RunOutcome.failed (RunError.loadError e), session, []⟩ := rfl

/-- C2 counterexample: for the JSON entry `{original: "foo", string: "bar"}`
found under the key of a record with `original_string = "foo"`, the entry's
declared original text equals the record's `original_string`, yet
reconciliation mutates the record (to translation `"bar"`, status
`TranslationIncomplete`) instead of the claimed pure no-op: the code
compares the entry's `string` field, not its `original` field. -/
theorem json_equal_original_still_mutates :
    jsonLookup [⟨0, "t", "foo", "bar"⟩] "foo" = some ⟨0, "t", "foo", "bar"⟩ ∧
    (⟨0, "t", "foo", "bar"⟩ : JsonEntry).original =
      (⟨"foo", "", Status.Untranslated, none, "", "", 0⟩ : StringRecord).original_string ∧
    (import_data_json [⟨0, "t", "foo", "bar"⟩] 1
        [⟨"foo", "", Status.Untranslated, none, "", "", 0⟩]).records =
      [⟨"foo", "bar", Status.TranslationIncomplete, none, "", "", 0⟩] ∧
    (⟨"foo", "bar", Status.TranslationIncomplete, none, "", "", 0⟩ : StringRecord) ≠
      ⟨"foo", "", Status.Untranslated, none, "", "", 0⟩ := by
  refine ⟨rfl, rfl, rfl, ?_⟩
  decide

/-- C2 amended: a found entry's `original` always equals the record's
`original_string` (the mapping is keyed by `original`); the mutation test
instead compares the entry's `string` field (the stored translation) with
`record.original_string`: when they differ, `translated_string` is set to
the entry's `string` and the status to `TranslationIncomplete`; when they
are equal, the record is unchanged. -/
theorem json_overwrite_rule (entries : List JsonEntry)
    (session : List StringRecord) (k : Nat) (r : StringRecord)
    (e : JsonEntry) (hk : session[k]? = some r)
    (hnc : r.status ≠ Status.TranslationComplete)
    (he : jsonLookup entries r.original_string = some e) :
    e.original = r.original_string ∧
    (e.string ≠ r.original_string →
      (import_data_json entries (jsonKeyCount entries) session).records[k]? =
        some { r with translated_string := e.string,
                      status := Status.TranslationIncomplete }) ∧
    (e.string = r.original_string →
      (import_data_json entries (jsonKeyCount entries) session).records[k]? =
        some r) := by
  have ht := jsonLookup_keyCount_pos entries _ e he
  have h := importLoop_get (jsonApply (jsonLookup entries)) _ ht session 0 k r hk
  refine ⟨jsonLookup_original entries _ e he, ?_, ?_⟩
  · intro hne
    rw [import_data_json, h]
    simp [jsonApply, hnc, he, hne]
  · intro heq
    rw [import_data_json, h]
    simp [jsonApply, hnc, he, heq]

/-- Witness for C2 amended, on both sides of the `string`-field test. -/
theorem json_overwrite_rule_witness :
    (import_data_json [⟨0, "t", "foo", "bar"⟩]
        (jsonKeyCount [⟨0, "t", "foo", "bar"⟩])
        [⟨"foo", "", Status.Untranslated, none, "", "", 0⟩]).records[0]? =
      some ⟨"foo", "bar", Status.TranslationIncomplete, none, "", "", 0⟩ ∧
    (import_data_json [⟨0, "t", "foo", "foo"⟩]
        (jsonKeyCount [⟨0, "t", "foo", "foo"⟩])
        [⟨"foo", "x", Status.Untranslated, none, "", "", 0⟩]).records[0]? =
      some ⟨"foo", "x", Status.Untranslated, none, "", "", 0⟩ :=
  ⟨(json_overwrite_rule [⟨0, "t", "foo", "bar"⟩]
      [⟨"foo", "", Status.Untranslated, none, "", "", 0⟩] 0
      ⟨"foo", "", Status.Untranslated, none, "", "", 0⟩
      ⟨0, "t", "foo", "bar"⟩ rfl (by decide) rfl).2.1 (by decide),
   (json_overwrite_rule [⟨0, "t", "foo", "foo"⟩]
      [⟨"foo", "x", Status.Untranslated, none, "", "", 0⟩] 0
      ⟨"foo", "x", Status.Untranslated, none, "", "", 0⟩
      ⟨0, "t", "foo", "foo"⟩ rfl (by decide) rfl).2.2 rfl⟩

/-- C3 counterexample: with one loaded entry (`total_entries = 1`) and two
non-complete session records matching it, the second emission is
`int(2 / 1 * 100) = 200`, outside `[0, 100]`: the loop divides by the
entry count while iterating over session records. -/
theorem progress_exceeds_100 :
    (import_data_json [⟨0, "t", "a", "b"⟩]
        (jsonKeyCount [⟨0, "t", "a", "b"⟩])
        [⟨"a", "", Status.Untranslated, none, "", "", 0⟩,
         ⟨"a", "x", Status.Untranslated, none, "", "", 0⟩]).progress =
      [100, 200] ∧
    ¬(∀ p ∈ (import_data_json [⟨0, "t", "a", "b"⟩]
        (jsonKeyCount [⟨0, "t", "a", "b"⟩])
        [⟨"a", "", Status.Untranslated, none, "", "", 0⟩,
         ⟨"a", "x", Status.Untranslated, none, "", "", 0⟩]).progress,
      p ≤ 100) := by
  refine ⟨rfl, ?_⟩
  decide

/-- C3 amended: with a nonzero entry count, progress is emitted only for
records that do not hit a `KeyError`; the `j`-th emitted value is
`floor((j + 1) * 100 / total)`, so the sequence is monotonically
non-decreasing; it stays within `[0, 100]` — and attains `100` exactly
when the emission count equals the total — only when the number of
emitting records is at most the number of loaded entries. -/
theorem progress_sequence_spec (entries : List JsonEntry)
    (session : List StringRecord)
    (ht : jsonKeyCount entries ≠ 0) :
    (import_data_json entries (jsonKeyCount entries) session).progress =
      (List.range (session.countP
          (fun r => (jsonApply (jsonLookup entries) r).isSome))).map
        (fun j => (j + 1) * 100 / jsonKeyCount entries) ∧
    (import_data_json entries (jsonKeyCount entries) session).progress.Pairwise
      (· ≤ ·) ∧
    (session.countP (fun r => (jsonApply (jsonLookup entries) r).isSome) ≤
        jsonKeyCount entries →
      (∀ p ∈ (import_data_json entries (jsonKeyCount entries) session).progress,
        p ≤ 100) ∧
      (100 ∈ (import_data_json entries (jsonKeyCount entries) session).progress ↔
        session.countP (fun r => (jsonApply (jsonLookup entries) r).isSome) =
          jsonKeyCount entries)) := by
  have hform := importLoop_progress_eq (jsonApply (jsonLookup entries))
    (jsonKeyCount entries) ht session 0
  have hform' : (import_data_json entries (jsonKeyCount entries) session).progress =
      (List.range (session.countP
          (fun r => (jsonApply (jsonLookup entries) r).isSome))).map
        (fun j => (j + 1) * 100 / jsonKeyCount entries) := by
    rw [import_data_json, hform]
    refine congrArg (fun f => List.map f _) (funext fun j => ?_)
    rw [Nat.zero_add]
  have htpos : 0 < jsonKeyCount entries := Nat.pos_of_ne_zero ht
  refine ⟨hform', ?_, fun hm => ⟨?_, ?_⟩⟩
  · rw [hform']
    rw [List.pairwise_map]
    refine List.Pairwise.imp ?_ (List.pairwise_lt_range _)
    intro a b hab
    exact Nat.div_le_div_right (Nat.mul_le_mul_right 100 (by omega))
  · intro p hp
    rw [hform'] at hp
    obtain ⟨j, hj, rfl⟩ := List.mem_map.mp hp
    rw [List.mem_range] at hj
    calc (j + 1) * 100 / jsonKeyCount entries
        ≤ jsonKeyCount entries * 100 / jsonKeyCount entries :=
          Nat.div_le_div_right (Nat.mul_le_mul_right 100 (by omega))
      _ = 100 := Nat.mul_div_cancel_left 100 htpos
  · rw [hform']
    constructor
    · intro hmem
      obtain ⟨j, hj, hval⟩ := List.mem_map.mp hmem
      rw [List.mem_range] at hj
      have h100 : 100 ≤ (j + 1) * 100 / jsonKeyCount entries := hval.ge
      have := (Nat.le_div_iff_mul_le htpos).mp h100
      have hle : jsonKeyCount entries ≤ j + 1 := by
        have h1 : jsonKeyCount entries * 100 ≤ (j + 1) * 100 := by
          calc jsonKeyCount entries * 100 = 100 * jsonKeyCount entries :=
                Nat.mul_comm _ _
            _ ≤ (j + 1) * 100 := this
        exact Nat.le_of_mul_le_mul_right h1 (by omega)
      omega
    · intro hEq
      refine List.mem_map.mpr ⟨jsonKeyCount entries - 1, ?_, ?_⟩
      · rw [List.mem_range]; omega
      · have hsub : jsonKeyCount entries - 1 + 1 = jsonKeyCount entries := by
          omega
        rw [hsub]
        exact Nat.mul_div_cancel_left 100 htpos

/-- Witness for C3 amended: one entry, one matching record, progress `[100]`. -/
theorem progress_sequence_spec_witness :
    (import_data_json [⟨0, "t", "a", "b"⟩]
        (jsonKeyCount [⟨0, "t", "a", "b"⟩])
        [⟨"a", "", Status.Untranslated, none, "", "", 0⟩]).progress =
      (List.range 1).map (fun j => (j + 1) * 100 / jsonKeyCount [⟨0, "t", "a", "b"⟩]) :=
  (progress_sequence_spec [⟨0, "t", "a", "b"⟩]
    [⟨"a", "", Status.Untranslated, none, "", "", 0⟩] (by decide)).1

/-- C4: with an empty source (zero entries) and a session containing a
`TranslationComplete` record, the progress line divides by the zero total:
the code has no special case, so the task fails with `ZeroDivisionError`
(records untouched, no progress) instead of completing at 100%. -/
theorem empty_source_zero_division :
    worker_run (Except.ok (SourceData.jsonSource []))
        [⟨"a", "t", Status.TranslationComplete, none, "", "", 0⟩] =
      ⟨RunOutcome.failed RunError.zeroDivisionError,
       [⟨"a", "t", Status.TranslationComplete, none, "", "", 0⟩], []⟩ := rfl

/-- C5 counterexample: a session holding one `Untranslated` record with
empty translation; `export_json` (incomplete records) then JSON re-import
flips its status to `TranslationIncomplete` — a status change, because the
re-import applies any entry whose `string` field differs from the
record's `original_string`. -/
theorem roundtrip_changes_untranslated_status :
    ((worker_run (Except.ok (SourceData.jsonSource
        (export_json false [⟨"foo", "", Status.Untranslated, none, "", "", 0⟩])))
        [⟨"foo", "", Status.Untranslated, none, "", "", 0⟩]).records).map
        (fun r => r.status) =
      [Status.TranslationIncomplete] ∧
    [Status.TranslationIncomplete] ≠ [Status.Untranslated] := by
  refine ⟨rfl, ?_⟩
  decide

/-- C5 amended: when no session record is `Untranslated` (every
non-complete record is already `TranslationIncomplete`), exporting the
incomplete records with `export_json` and re-importing the exported file
through the JSON reconciliation changes no record's status. -/
theorem roundtrip_preserves_status (session : List StringRecord)
    (h : ∀ r ∈ session, r.status ≠ Status.Untranslated) :
    ((worker_run (Except.ok (SourceData.jsonSource (export_json false session)))
        session).records).map (fun r => r.status) =
      session.map (fun r => r.status) := by
  have hst : ∀ r ∈ session, ∀ r',
      jsonApply (jsonLookup (export_json false session)) r = some r' →
      r'.status = r.status := by
    intro r hr r' happ
    by_cases hc : r.status = Status.TranslationComplete
    · simp only [jsonApply, if_pos hc, Option.some.injEq] at happ
      rw [← happ]
    · have hi : r.status = Status.TranslationIncomplete := by
        have hu := h r hr
        cases hcase : r.status
        · exact absurd hcase hu
        · rfl
        · exact absurd hcase hc
      simp only [jsonApply, if_neg hc] at happ
      cases hlk : jsonLookup (export_json false session) r.original_string with
      | none => rw [hlk] at happ; cases happ
      | some e =>
        rw [hlk] at happ
        dsimp only at happ
        by_cases hne : e.string ≠ r.original_string
        · rw [if_pos hne, Option.some.injEq] at happ
          rw [← happ, hi]
        · rw [if_neg hne, Option.some.injEq] at happ
          rw [← happ]
  show ((import_data_json (export_json false session)
      (jsonKeyCount (export_json false session)) session).records).map
      (fun r => r.status) = session.map (fun r => r.status)
  rw [import_data_json]
  exact importLoop_map_status _ _ session 0 hst

/-- Witness for C5 amended: one `TranslationIncomplete` record round-trips
with its status intact. -/
theorem roundtrip_preserves_status_witness :
    ((worker_run (Except.ok (SourceData.jsonSource
        (export_json false [⟨"foo", "tr", Status.TranslationIncomplete, none, "", "", 0⟩])))
        [⟨"foo", "tr", Status.TranslationIncomplete, none, "", "", 0⟩]).records).map
        (fun r => r.status) =
      ([⟨"foo", "tr", Status.TranslationIncomplete, none, "", "", 0⟩] :
          List StringRecord).map (fun r => r.status) :=
  roundtrip_preserves_status
    [⟨"foo", "tr", Status.TranslationIncomplete, none, "", "", 0⟩] (by decide)

/-- C6 counterexample: a matched plugin entry with `translated_string "T"`
and status `TranslationComplete` produces a record carrying the entry's
`original_string "O"` and the constant status `TranslationIncomplete` —
not the entry's `translated_string`/`status` the legacy-source rule
("the matched entry's values to-the-letter") would copy. -/
theorem esp_not_legacy_rule :
    (import_esp false
        [⟨"O", "T", Status.TranslationComplete, some "ED", "F", "TY", 0⟩]
        [⟨"orig", "", Status.Untranslated, some "ED", "F", "TY", 0⟩])[0]? =
      some ⟨"orig", "O", Status.TranslationIncomplete, some "ED", "F", "TY", 0⟩ ∧
    ("O" : String) ≠ "T" ∧
    Status.TranslationIncomplete ≠ Status.TranslationComplete := by
  refine ⟨rfl, ?_, ?_⟩ <;> decide

/-- C6 amended: the lookup key is `(editor_id, type)` or
`(editor_id, form_id, type)` per the caller-supplied mode; with several
candidates under the key the first whose `index` equals the record's
`index` is chosen and the record is skipped when none matches; on a match
`translated_string` is set to the matched entry's `original_string` and
`status` to the constant `TranslationIncomplete` (as in the JSON rule, not
a status copied from the entry). -/
theorem esp_matching_rule (oe : Bool) (strs session : List StringRecord)
    (k : Nat) (r : StringRecord) (hk : session[k]? = some r)
    (hnc : r.status ≠ Status.TranslationComplete)
    (hedid : ¬(r.editor_id = none ∧ oe = true)) :
    espKey true r = EspKey.edid r.editor_id r.type ∧
    espKey false r = EspKey.full r.editor_id r.form_id r.type ∧
    (extract_translation_strings oe strs (espKey oe r) = [] →
      (import_esp oe strs session)[k]? = some r) ∧
    (∀ t, extract_translation_strings oe strs (espKey oe r) = [t] →
      (import_esp oe strs session)[k]? =
        some { r with translated_string := t.original_string,
                      status := Status.TranslationIncomplete }) ∧
    (∀ t1 t2 ts,
      extract_translation_strings oe strs (espKey oe r) = t1 :: t2 :: ts →
      ((extract_translation_strings oe strs (espKey oe r)).filter
          (fun t => t.index == r.index) = [] →
        (import_esp oe strs session)[k]? = some r) ∧
      (∀ u us, (extract_translation_strings oe strs (espKey oe r)).filter
          (fun t => t.index == r.index) = u :: us →
        (import_esp oe strs session)[k]? =
          some { r with translated_string := u.original_string,
                        status := Status.TranslationIncomplete })) := by
  have hmap : (import_esp oe strs session)[k]? =
      some (espApply (extract_translation_strings oe strs) oe r) := by
    rw [import_esp, List.getElem?_map, hk, Option.map_some']
  refine ⟨rfl, rfl, ?_, ?_, ?_⟩
  · intro hnil
    rw [hmap]
    simp [espApply, hnc, hedid, hnil]
  · intro t hone
    rw [hmap]
    simp [espApply, hnc, hedid, hone]
  · intro t1 t2 ts hmany
    constructor
    · intro hfilt
      rw [hmany] at hfilt
      rw [hmap]
      simp [espApply, hnc, hedid, hmany, hfilt]
    · intro u us hfilt
      rw [hmany] at hfilt
      rw [hmap]
      simp [espApply, hnc, hedid, hmany, hfilt]

/-- Witness for C6 amended: disambiguation by `index` among two candidates
sharing the key. -/
theorem esp_matching_rule_witness :
    (import_esp false
        [⟨"O1", "", Status.Untranslated, some "ED", "F", "TY", 7⟩,
         ⟨"O2", "", Status.Untranslated, some "ED", "F", "TY", 3⟩]
        [⟨"orig", "", Status.Untranslated, some "ED", "F", "TY", 3⟩])[0]? =
      some ⟨"orig", "O2", Status.TranslationIncomplete, some "ED", "F", "TY", 3⟩ :=
  ((esp_matching_rule false
      [⟨"O1", "", Status.Untranslated, some "ED", "F", "TY", 7⟩,
       ⟨"O2", "", Status.Untranslated, some "ED", "F", "TY", 3⟩]
      [⟨"orig", "", Status.Untranslated, some "ED", "F", "TY", 3⟩] 0
      ⟨"orig", "", Status.Untranslated, some "ED", "F", "TY", 3⟩
      rfl (by decide) (by decide)).2.2.2.2
    ⟨"O1", "", Status.Untranslated, some "ED", "F", "TY", 7⟩
    ⟨"O2", "", Status.Untranslated, some "ED", "F", "TY", 3⟩ [] rfl).2
    ⟨"O2", "", Status.Untranslated, some "ED", "F", "TY", 3⟩ [] rfl

/-- If some non-complete record's `original_string` is a substring of the
data string, `update_gui_with_data` raises `TypeError`. -/
theorem update_gui_error_of_match (data : String) :
    ∀ sess : List StringRecord,
      (∃ r ∈ sess, r.status ≠ Status.TranslationComplete ∧
        pyInStr r.original_string data = true) →
      update_gui_with_data data sess = Except.error GuiErr.typeError := by
  intro sess
  induction sess with
  | nil => rintro ⟨r, hr, _⟩; simp at hr
  | cons r0 rs ih =>
    rintro ⟨r, hr, hcond⟩
    by_cases h0 : r0.status ≠ Status.TranslationComplete ∧
        pyInStr r0.original_string data = true
    · simp [update_gui_with_data, h0]
    · have hrmem : r ∈ rs := by
        rcases List.mem_cons.mp hr with hEq | hmem
        · exact absurd (hEq ▸ hcond) h0
        · exact hmem
      simp [update_gui_with_data, h0, ih ⟨r, hrmem, hcond⟩, Except.map]

/-- If no non-complete record's `original_string` is a substring of the
data string, `update_gui_with_data` completes and leaves every record
unchanged. -/
theorem update_gui_ok_of_no_match (data : String) :
    ∀ sess : List StringRecord,
      (∀ r ∈ sess, r.status = Status.TranslationComplete ∨
        pyInStr r.original_string data = false) →
      update_gui_with_data data sess = Except.ok sess := by
  intro sess
  induction sess with
  | nil => intro _; rfl
  | cons r0 rs ih =>
    intro h
    have h0 : ¬(r0.status ≠ Status.TranslationComplete ∧
        pyInStr r0.original_string data = true) := by
      rcases h r0 (List.mem_cons_self r0 rs) with hc | hs
      · exact fun hcon => hcon.1 hc
      · exact fun hcon => by rw [hs] at hcon; exact absurd hcon.2 (by simp)
    have htl := ih (fun r hr => h r (List.mem_cons_of_mem r0 hr))
    simp [update_gui_with_data, h0, htl, Except.map]

/-- C9: the `result` signal of a successful `Worker.run` carries the
constant string `'DB_IMPORTED'`; the connected slot
`update_gui_with_data`, applied to that string, treats
`string.original_string in data` as a substring test on `'DB_IMPORTED'`:
a non-complete record whose `original_string` is a substring makes the
subsequent string indexing raise `TypeError` (uncaught by the
`except KeyError` handler), and with no such record the second pass leaves
the session unchanged. -/
theorem db_imported_second_pass (load : Except LoadErr SourceData)
    (session sess : List StringRecord) (s : String) :
    ((worker_run load session).outcome = RunOutcome.completed s →
      s = "DB_IMPORTED") ∧
    ((∃ r ∈ sess, r.status ≠ Status.TranslationComplete ∧
        pyInStr r.original_string "DB_IMPORTED" = true) →
      update_gui_with_data "DB_IMPORTED" sess = Except.error GuiErr.typeError) ∧
    ((∀ r ∈ sess, r.status = Status.TranslationComplete ∨
        pyInStr r.original_string "DB_IMPORTED" = false) →
      update_gui_with_data "DB_IMPORTED" sess = Except.ok sess) := by
  refine ⟨?_, update_gui_error_of_match _ sess, update_gui_ok_of_no_match _ sess⟩
  intro hout
  match load with
  | Except.error e => simp [worker_run] at hout
  | Except.ok (SourceData.jsonSource entries) =>
    rw [worker_run] at hout
    cases herr : (import_data_json entries (jsonKeyCount entries) session).err with
    | none => rw [herr] at hout; cases hout; rfl
    | some e0 => rw [herr] at hout; cases hout
  | Except.ok (SourceData.legacySource entries) =>
    rw [worker_run] at hout
    cases herr : (import_data_legacy entries (legacyKeyCount entries) session).err with
    | none => rw [herr] at hout; cases hout; rfl
    | some e0 => rw [herr] at hout; cases hout

/-- Witness for C9: a successful empty import emits `'DB_IMPORTED'`; a
non-complete record with original `"IMPORT"` (a substring of
`'DB_IMPORTED'`) makes the slot raise `TypeError`; a record with original
`"xyz"` is left unchanged. -/
theorem db_imported_second_pass_witness :
    ("DB_IMPORTED" : String) = "DB_IMPORTED" ∧
    update_gui_with_data "DB_IMPORTED"
        [⟨"IMPORT", "", Status.Untranslated, none, "", "", 0⟩] =
      Except.error GuiErr.typeError ∧
    update_gui_with_data "DB_IMPORTED"
        [⟨"xyz", "", Status.Untranslated, none, "", "", 0⟩] =
      Except.ok [⟨"xyz", "", Status.Untranslated, none, "", "", 0⟩] :=
  ⟨(db_imported_second_pass (Except.ok (SourceData.jsonSource [])) [] []
      "DB_IMPORTED").1 rfl,
   (db_imported_second_pass (Except.ok (SourceData.jsonSource [])) []
      [⟨"IMPORT", "", Status.Untranslated, none, "", "", 0⟩]
      "DB_IMPORTED").2.1
     ⟨⟨"IMPORT", "", Status.Untranslated, none, "", "", 0⟩,
      List.mem_singleton.mpr rfl, by decide, by decide⟩,
   (db_imported_second_pass (Except.ok (SourceData.jsonSource [])) []
      [⟨"xyz", "", Status.Untranslated, none, "", "", 0⟩]
      "DB_IMPORTED").2.2
     (by intro r hr; right; rw [List.mem_singleton.mp hr]; decide)⟩

/-- C10: for `count ≥ 1` pages, `slideInIndex` targets position
`index mod count` (Python `%` is Euclidean for a positive modulus, so
`index % count` on overflow and `(index + count) % count` on underflow both
equal `index mod count`, and an in-range index is its own remainder); on
overflow the direction is forced forward by the orientation, on underflow
backward, regardless of the supplied direction; in range the supplied
direction is kept. -/
theorem slideInIndex_spec (count : Nat) (o : StackedWidget.Orientation)
    (index : Int) (d : StackedWidget.Direction) (hc : 1 ≤ count) :
    (StackedWidget.slideInIndex count o index d).1 = index % (count : Int) ∧
    (index > (count : Int) - 1 →
      (StackedWidget.slideInIndex count o index d).2 =
        if o = StackedWidget.Orientation.Vertical then
          StackedWidget.Direction.TopToBottom
        else StackedWidget.Direction.RightToLeft) ∧
    (index < 0 →
      (StackedWidget.slideInIndex count o index d).2 =
        if o = StackedWidget.Orientation.Vertical then
          StackedWidget.Direction.BottomToTop
        else StackedWidget.Direction.LeftToRight) ∧
    (0 ≤ index → index ≤ (count : Int) - 1 →
      (StackedWidget.slideInIndex count o index d).2 = d) := by
  have hcpos : (0 : Int) < (count : Int) := by exact_mod_cast hc
  by_cases hhi : index > (count : Int) - 1
  · refine ⟨?_, fun _ => ?_, fun hlo => ?_, fun h0 h1 => ?_⟩
    · rw [StackedWidget.slideInIndex, if_pos hhi]
    · rw [StackedWidget.slideInIndex, if_pos hhi]
    · omega
    · omega
  · by_cases hlo : index < 0
    · refine ⟨?_, fun h => absurd h hhi, fun _ => ?_, fun h0 _ => ?_⟩
      · rw [StackedWidget.slideInIndex, if_neg hhi, if_pos hlo]
        show (index + (count : Int)) % (count : Int) = index % (count : Int)
        have h1 := Int.add_mul_emod_self_left index ((count : Int)) 1
        rw [Int.mul_one] at h1
        exact h1
      · rw [StackedWidget.slideInIndex, if_neg hhi, if_pos hlo]
      · omega
    · refine ⟨?_, fun h => absurd h hhi, fun h => absurd h hlo, fun _ _ => ?_⟩
      · rw [StackedWidget.slideInIndex, if_neg hhi, if_neg hlo]
        show index = index % (count : Int)
        rw [Int.emod_eq_of_lt (by omega) (by omega)]
      · rw [StackedWidget.slideInIndex, if_neg hhi, if_neg hlo]

/-- Witness for C10: three pages, overflow index 5 targets page 2 with the
forced vertical-forward direction. -/
theorem slideInIndex_spec_witness :
    (StackedWidget.slideInIndex 3 StackedWidget.Orientation.Vertical 5
        StackedWidget.Direction.Automatic).1 = (5 : Int) % (3 : Int) ∧
    (StackedWidget.slideInIndex 3 StackedWidget.Orientation.Vertical 5
        StackedWidget.Direction.Automatic).2 =
      StackedWidget.Direction.TopToBottom :=
  ⟨(slideInIndex_spec 3 StackedWidget.Orientation.Vertical 5
      StackedWidget.Direction.Automatic (by decide)).1,
   by
    have h := (slideInIndex_spec 3 StackedWidget.Orientation.Vertical 5
      StackedWidget.Direction.Automatic (by decide)).2.1 (by decide)
    simp at h
    exact h⟩
